import Mathlib

/-!
Verification of the TokenLink design-token scripts.

This file shallowly embeds the data model and the core operations of the
repository (alias-chain resolution and validation from
`validate_figma_aliases.py`, the repair passes from
`fix_all_white_colors.py`, `fix_external_references.py` and
`fix_external_references_v2.py`, the multi-mode trace from
`deep_alias_trace.py`, and the OKLCH→sRGB converter shared by the fixer
scripts) and proves the spec's testable properties about them.

Python floats are modelled as exact rationals; the transcendental
operations (`math.cos`, `math.sin`, `x ** (1/2.4)`) are passed in as
explicit function parameters so every definition stays computable.
Python dicts are modelled as association lists (first hit wins on lookup;
builders that overwrite push the newest binding to the front), and Python
sets of ids as lists used only for membership and insertion.
-/

namespace TokenLink

/-! ## Data model (spec §3, §6)

A `valuesByMode` entry in the export is either a direct color dict
`{r,g,b,a}`, an alias dict `{type: "VARIABLE_ALIAS", id: …}`, some other
truthy value, or a falsy value (the scripts' `if not value:` checks).  -/

inductive Value where
  | color (r g b a : ℚ)
  | aliasV (id : String)
  | falsy
  | other
deriving DecidableEq, Repr

structure Mode where
  modeId : String
  name : String
deriving DecidableEq, Repr

structure Variable where
  id : String
  name : String
  resolvedType : String
  valuesByMode : List (String × Value)
deriving DecidableEq, Repr

structure Collection where
  id : String
  name : String
  modes : List Mode
  vars : List Variable
deriving DecidableEq, Repr

structure Document where
  collections : List Collection
deriving DecidableEq, Repr

/-- Python's `c in s` on a string: character membership. -/
def strHasChar (s : String) (c : Char) : Bool :=
  s.data.any (fun x => x = c)

/-- Dict lookup: Python dict keys are unique, so the first matching key is
the binding. -/
def alookup {α : Type} (l : List (String × α)) (k : String) : Option α :=
  (l.find? (fun p => p.1 = k)).map (fun p => p.2)

/-- All variables of the document in declaration order (collections in
order, variables in order). -/
def docVars (doc : Document) : List Variable :=
  doc.collections.flatMap (fun c => c.vars)

/-- The set of variable ids present in the document. -/
def docIds (doc : Document) : Finset String :=
  ((docVars doc).map (fun v => v.id)).toFinset

/-- `AliasValidator._build_lookups`: `variables_by_id` maps a variable id
to its record; a later binding overwrites an earlier one. -/
def variablesById (doc : Document) (vid : String) : Option Variable :=
  doc.collections.foldl
    (fun acc c => c.vars.foldl
      (fun acc v => if v.id = vid then some v else acc) acc)
    none

/-- The name the resolver records for a chain entry:
`variable.get('name', variable_id)` after a successful id lookup. -/
def nameOf (doc : Document) (vid : String) : String :=
  match variablesById doc vid with
  | some var => var.name
  | none => vid

/-! ## Alias resolution (`AliasValidator.resolve_alias_chain`)

The Python function recurses on the alias target after inserting the
current id into `visited`; the recursion is bounded because `visited`
grows inside the finite id universe of the document.  The embedding makes
the step count explicit with a fuel parameter (`none` = fuel exhausted;
the termination theorem shows enough fuel always exists). -/

structure RRes where
  success : Bool
  value : Option Value
  path : List String
deriving DecidableEq, Repr

def resolve_alias_chain (doc : Document) :
    ℕ → String → String → List String → Option RRes
  | 0, _, _, _ => none
  | fuel+1, vid, mid, visited =>
    -- circular check happens before the id is dereferenced
    if vid ∈ visited then some ⟨false, none, ["CIRCULAR: " ++ vid]⟩ else
    match variablesById doc vid with
    | none => some ⟨false, none, ["NOT_FOUND: " ++ vid]⟩
    | some var =>
      -- chain_path = [variable name]
      match alookup var.valuesByMode mid with
      | none => some ⟨false, none, [var.name, "NO_VALUE_FOR_MODE: " ++ mid]⟩
      | some Value.falsy => some ⟨false, none, [var.name, "NO_VALUE_FOR_MODE: " ++ mid]⟩
      | some (Value.color r g b a) =>
          some ⟨true, some (Value.color r g b a), [var.name]⟩
      | some (Value.aliasV t) =>
          if strHasChar t '/' then
            some ⟨false, none, [var.name, "EXTERNAL_REF: " ++ t]⟩
          else
            match resolve_alias_chain doc fuel t mid (vid :: visited) with
            | none => none
            | some sub => some ⟨sub.success, sub.value, var.name :: sub.path⟩
      | some Value.other => some ⟨false, none, [var.name, "UNKNOWN_VALUE_TYPE"]⟩

/-! ### Basic facts about the lookup table -/

lemma foldl_find_var {vid : String} {var : Variable} :
    ∀ (l : List Variable) (acc : Option Variable),
      l.foldl (fun acc v => if v.id = vid then some v else acc) acc = some var →
      acc = some var ∨ (var ∈ l ∧ var.id = vid) := by
  intro l
  induction l with
  | nil => intro acc h; exact Or.inl h
  | cons v tl ih =>
    intro acc h
    simp only [List.foldl_cons] at h
    rcases ih _ h with h1 | h2
    · by_cases hv : v.id = vid
      · rw [if_pos hv] at h1
        injection h1 with h1
        subst h1
        exact Or.inr ⟨List.mem_cons_self v tl, hv⟩
      · rw [if_neg hv] at h1
        exact Or.inl h1
    · exact Or.inr ⟨List.mem_cons_of_mem v h2.1, h2.2⟩

lemma variablesById_mem {doc : Document} {vid : String} {var : Variable}
    (h : variablesById doc vid = some var) :
    var ∈ docVars doc ∧ var.id = vid := by
  unfold variablesById at h
  suffices H : ∀ (cols : List Collection) (acc : Option Variable),
      cols.foldl (fun acc c => c.vars.foldl
        (fun acc v => if v.id = vid then some v else acc) acc) acc = some var →
      acc = some var ∨ (var ∈ cols.flatMap (fun c => c.vars) ∧ var.id = vid) by
    rcases H doc.collections none h with h1 | h2
    · exact absurd h1 (by simp)
    · exact h2
  intro cols
  induction cols with
  | nil => intro acc h; exact Or.inl h
  | cons c tl ih =>
    intro acc h
    simp only [List.foldl_cons] at h
    rcases ih _ h with h1 | h2
    · rcases foldl_find_var c.vars acc h1 with g1 | g2
      · exact Or.inl g1
      · exact Or.inr ⟨by simp [List.mem_flatMap]; exact Or.inl g2.1, g2.2⟩
    · exact Or.inr ⟨by simp [List.mem_flatMap] at h2 ⊢; tauto, h2.2⟩

lemma mem_docIds_of_lookup {doc : Document} {vid : String} {var : Variable}
    (h : variablesById doc vid = some var) : vid ∈ docIds doc := by
  obtain ⟨hmem, hid⟩ := variablesById_mem h
  unfold docIds
  rw [List.mem_toFinset, List.mem_map]
  exact ⟨var, hmem, hid⟩

/-- C1. `resolve_alias_chain` always terminates: whenever the fuel exceeds
the number of document ids not yet visited, the function returns a result
(never the out-of-fuel marker `none`), even in the presence of alias
cycles; moreover the visited-set membership check is performed before the
target id is dereferenced, so an already-visited id is classified
`CIRCULAR` regardless of whether it even exists in the index. -/
theorem resolve_terminates (doc : Document) (mid : String) :
    ∀ (fuel : ℕ) (vid : String) (visited : List String),
      ((docIds doc).filter (fun i => i ∉ visited)).card < fuel →
      (∃ r, resolve_alias_chain doc fuel vid mid visited = some r) ∧
      (vid ∈ visited →
        resolve_alias_chain doc fuel vid mid visited =
          some ⟨false, none, ["CIRCULAR: " ++ vid]⟩) := by
  intro fuel
  induction fuel with
  | zero => intro vid visited h; exact absurd h (by omega)
  | succ n ih =>
    intro vid visited h
    by_cases hvis : vid ∈ visited
    · constructor
      · exact ⟨⟨false, none, ["CIRCULAR: " ++ vid]⟩, by
          simp [resolve_alias_chain, hvis]⟩
      · intro _; simp [resolve_alias_chain, hvis]
    · refine ⟨?_, fun hc => absurd hc hvis⟩
      rcases hvar : variablesById doc vid with _ | var
      · exact ⟨⟨false, none, ["NOT_FOUND: " ++ vid]⟩, by
          simp [resolve_alias_chain, hvis, hvar]⟩
      · rcases hval : alookup var.valuesByMode mid with _ | v
        · exact ⟨⟨false, none, [var.name, "NO_VALUE_FOR_MODE: " ++ mid]⟩, by
            simp [resolve_alias_chain, hvis, hvar, hval]⟩
        · cases v with
          | color r g b a =>
            exact ⟨⟨true, some (Value.color r g b a), [var.name]⟩, by
              simp [resolve_alias_chain, hvis, hvar, hval]⟩
          | falsy =>
            exact ⟨⟨false, none, [var.name, "NO_VALUE_FOR_MODE: " ++ mid]⟩, by
              simp [resolve_alias_chain, hvis, hvar, hval]⟩
          | other =>
            exact ⟨⟨false, none, [var.name, "UNKNOWN_VALUE_TYPE"]⟩, by
              simp [resolve_alias_chain, hvis, hvar, hval]⟩
          | aliasV t =>
            by_cases hext : strHasChar t '/'
            · exact ⟨⟨false, none, [var.name, "EXTERNAL_REF: " ++ t]⟩, by
                simp [resolve_alias_chain, hvis, hvar, hval, hext]⟩
            · -- the recursive call: the unvisited id set strictly shrinks
              have hviddoc : vid ∈ docIds doc := mem_docIds_of_lookup hvar
              have hsub : (docIds doc).filter (fun i => i ∉ vid :: visited) ⊆
                  (docIds doc).filter (fun i => i ∉ visited) := by
                intro x hx
                simp only [Finset.mem_filter, List.mem_cons] at hx ⊢
                exact ⟨hx.1, fun hmem => hx.2 (Or.inr hmem)⟩
              have hss : (docIds doc).filter (fun i => i ∉ vid :: visited) ⊂
                  (docIds doc).filter (fun i => i ∉ visited) := by
                rw [Finset.ssubset_iff_of_subset hsub]
                refine ⟨vid, ?_, ?_⟩
                · simp only [Finset.mem_filter]; exact ⟨hviddoc, hvis⟩
                · simp
              have hcard : ((docIds doc).filter (fun i => i ∉ vid :: visited)).card < n := by
                have := Finset.card_lt_card hss
                omega
              obtain ⟨r, hr⟩ := (ih t (vid :: visited) hcard).1
              exact ⟨⟨r.success, r.value, var.name :: r.path⟩, by
                simp [resolve_alias_chain, hvis, hvar, hval, hext, hr]⟩

/-- Witness for `resolve_terminates`: a two-element alias cycle resolves
with fuel 3 from an empty visited set, and an id already in the visited
set is reported circular immediately. -/
def cycDoc : Document :=
  { collections := [
      { id := "c1", name := "1 Appearance",
        modes := [{ modeId := "m1", name := "Light" }],
        vars := [
          { id := "a", name := "A", resolvedType := "COLOR",
            valuesByMode := [("m1", Value.aliasV "b")] },
          { id := "b", name := "B", resolvedType := "COLOR",
            valuesByMode := [("m1", Value.aliasV "a")] }] }] }

theorem resolve_terminates_witness :
    ((docIds cycDoc).filter (fun i => i ∉ ([] : List String))).card < 3 ∧
    (∃ r, resolve_alias_chain cycDoc 3 "a" "m1" [] = some r) ∧
    ((docIds cycDoc).filter (fun i => i ∉ ["a"])).card < 2 ∧
    resolve_alias_chain cycDoc 2 "a" "m1" ["a"] =
      some ⟨false, none, ["CIRCULAR: " ++ "a"]⟩ :=
  ⟨by decide, (resolve_terminates cycDoc "m1" 3 "a" [] (by decide)).1,
   by decide, (resolve_terminates cycDoc "m1" 2 "a" ["a"] (by decide)).2 (by decide)⟩

/-- C3. When the resolver reaches an alias whose target id contains the
foreign-namespace separator `'/'`, it classifies the chain as
`EXTERNAL_REF` immediately — the result never consults the index entry of
the target (the returned value is fully determined before any lookup of
`t`), and the classification is distinct from the `NOT_FOUND` one. -/
theorem resolve_external_ref (doc : Document) (fuel : ℕ) (vid mid t : String)
    (visited : List String) (var : Variable)
    (hvis : vid ∉ visited)
    (hvar : variablesById doc vid = some var)
    (hval : alookup var.valuesByMode mid = some (Value.aliasV t))
    (hext : strHasChar t '/' = true) :
    resolve_alias_chain doc (fuel+1) vid mid visited =
      some ⟨false, none, [var.name, "EXTERNAL_REF: " ++ t]⟩ ∧
    resolve_alias_chain doc (fuel+1) vid mid visited ≠
      some ⟨false, none, [var.name, "NOT_FOUND: " ++ t]⟩ := by
  have h1 : resolve_alias_chain doc (fuel+1) vid mid visited =
      some ⟨false, none, [var.name, "EXTERNAL_REF: " ++ t]⟩ := by
    simp [resolve_alias_chain, hvis, hvar, hval, hext]
  refine ⟨h1, ?_⟩
  rw [h1]
  intro hcontra
  have he : "EXTERNAL_REF: " ++ t = "NOT_FOUND: " ++ t := by
    have hp := congrArg RRes.path (Option.some.inj hcontra)
    simpa using hp
  have hlen := congrArg String.length he
  rw [String.length_append, String.length_append] at hlen
  have h14 : ("EXTERNAL_REF: ").length = 14 := rfl
  have h11 : ("NOT_FOUND: ").length = 11 := rfl
  rw [h14, h11] at hlen
  omega

/-- Witness document for `resolve_external_ref`: the alias target
`"S1:1/2"` carries the `'/'` marker and is absent from the index. -/
def extVar : Variable :=
  { id := "v", name := "Grey/100/Surface", resolvedType := "COLOR",
    valuesByMode := [("m1", Value.aliasV "S1:1/2")] }

def extDoc : Document :=
  { collections := [
      { id := "c1", name := "00_Semi semantics",
        modes := [{ modeId := "m1", name := "Value" }],
        vars := [extVar] }] }

theorem resolve_external_ref_witness :
    ("v" ∉ ([] : List String)) ∧
    variablesById extDoc "v" = some extVar ∧
    alookup extVar.valuesByMode "m1" = some (Value.aliasV "S1:1/2") ∧
    strHasChar "S1:1/2" '/' = true ∧
    variablesById extDoc "S1:1/2" = none ∧
    resolve_alias_chain extDoc 2 "v" "m1" [] =
      some ⟨false, none, [extVar.name, "EXTERNAL_REF: " ++ "S1:1/2"]⟩ :=
  ⟨by decide, rfl, rfl, by decide, rfl,
    (resolve_external_ref extDoc 1 "v" "m1" "S1:1/2" [] extVar
      (by decide) rfl rfl (by decide)).1⟩

/-! ### The successor function of the alias graph

`stepTo doc mid v = some t` exactly when the resolver, having
dereferenced `v` in mode `mid`, would recurse on `t`: `v` is in the
index, its value for `mid` is an alias, and the target carries no
external marker. -/

def stepTo (doc : Document) (mid vid : String) : Option String :=
  match variablesById doc vid with
  | some var =>
    match alookup var.valuesByMode mid with
    | some (Value.aliasV t) => if strHasChar t '/' then none else some t
    | _ => none
  | none => none

/-- `k` resolver steps from `v` (head-first composition). -/
def stepIter (doc : Document) (mid : String) : ℕ → String → Option String
  | 0, v => some v
  | n+1, v => (stepTo doc mid v).bind (stepIter doc mid n)

lemma stepTo_inv {doc : Document} {mid u t : String}
    (h : stepTo doc mid u = some t) :
    ∃ var, variablesById doc u = some var ∧
      alookup var.valuesByMode mid = some (Value.aliasV t) ∧
      strHasChar t '/' = false := by
  unfold stepTo at h
  rcases hvar : variablesById doc u with _ | var
  · simp [hvar] at h
  · simp only [hvar] at h
    rcases hval : alookup var.valuesByMode mid with _ | v
    · simp [hval] at h
    · simp only [hval] at h
      cases v with
      | color r g b a => simp at h
      | falsy => simp at h
      | other => simp at h
      | aliasV s =>
        by_cases hext : strHasChar s '/'
        · simp [hext] at h
        · simp [hext] at h
          subst h
          exact ⟨var, rfl, hval, by simpa using hext⟩

lemma stepIter_add (doc : Document) (mid : String) :
    ∀ (m n : ℕ) (v : String),
      stepIter doc mid (m + n) v =
        (stepIter doc mid m v).bind (stepIter doc mid n) := by
  intro m
  induction m with
  | zero => intro n v; simp [stepIter]
  | succ m ih =>
    intro n v
    have hmn : m + 1 + n = (m + n) + 1 := by omega
    rw [hmn]
    show (stepTo doc mid v).bind (stepIter doc mid (m + n)) =
      ((stepTo doc mid v).bind (stepIter doc mid m)).bind (stepIter doc mid n)
    rcases hs : stepTo doc mid v with _ | u
    · rfl
    · show stepIter doc mid (m + n) u = (stepIter doc mid m u).bind (stepIter doc mid n)
      exact ih n u

lemma stepIter_succ_right (doc : Document) (mid : String) (n : ℕ) (v : String) :
    stepIter doc mid (n + 1) v = (stepIter doc mid n v).bind (stepTo doc mid) := by
  rw [stepIter_add doc mid n 1 v]
  rcases h : stepIter doc mid n v with _ | u
  · rfl
  · show stepIter doc mid 1 u = stepTo doc mid u
    show (stepTo doc mid u).bind (stepIter doc mid 0) = stepTo doc mid u
    rcases hs : stepTo doc mid u with _ | w <;> simp [hs, stepIter]

/-- One unfolding of the resolver across a local (non-external) alias. -/
lemma resolve_step_alias {doc : Document} {fuel : ℕ} {vid mid : String}
    {visited : List String} {var : Variable} {t : String}
    (hvis : vid ∉ visited)
    (hvar : variablesById doc vid = some var)
    (hval : alookup var.valuesByMode mid = some (Value.aliasV t))
    (hext : strHasChar t '/' = false) :
    resolve_alias_chain doc (fuel + 1) vid mid visited =
      match resolve_alias_chain doc fuel t mid (vid :: visited) with
      | none => none
      | some sub => some ⟨sub.success, sub.value, var.name :: sub.path⟩ := by
  rcases hsub : resolve_alias_chain doc fuel t mid (vid :: visited) with _ | sub <;>
    simp [resolve_alias_chain, hvis, hvar, hval, hext, hsub]

/-- The resolver's walk shape: consecutive `stepTo` successors, with the
last element stepping to `t`. -/
def okWalk (doc : Document) (mid : String) : List String → String → Prop
  | [], _ => True
  | [u], t => stepTo doc mid u = some t
  | u :: v :: rest, t => stepTo doc mid u = some v ∧ okWalk doc mid (v :: rest) t

/-- If the resolver walks a duplicate-free chain `u :: us` of local alias
links, disjoint from `visited`, whose last link points back into
`visited` or into the chain itself, it stops with a `CIRCULAR` diagnostic
whose path lists exactly the names of the chain in order. -/
lemma resolve_walk (doc : Document) (mid : String) :
    ∀ (us : List String) (u t : String) (visited : List String) (fuel : ℕ),
      (u :: us).Nodup →
      (∀ x ∈ u :: us, x ∉ visited) →
      okWalk doc mid (u :: us) t →
      (t ∈ visited ∨ t ∈ u :: us) →
      (u :: us).length < fuel →
      resolve_alias_chain doc fuel u mid visited =
        some ⟨false, none, (u :: us).map (nameOf doc) ++ ["CIRCULAR: " ++ t]⟩ := by
  intro us
  induction us with
  | nil =>
    intro u t visited fuel _ hdisj hwalk htin hfuel
    obtain ⟨f, rfl⟩ : ∃ f, fuel = f + 2 := ⟨fuel - 2, by simp at hfuel; omega⟩
    obtain ⟨var, hvar, hval, hext⟩ := stepTo_inv hwalk
    have hu : u ∉ visited := hdisj u (List.mem_cons_self u [])
    have htin' : t ∈ u :: visited := by
      rcases htin with h | h
      · exact List.mem_cons_of_mem u h
      · simp at h; subst h; exact List.mem_cons_self t visited
    have hrec : resolve_alias_chain doc (f + 1) t mid (u :: visited) =
        some ⟨false, none, ["CIRCULAR: " ++ t]⟩ := by
      simp [resolve_alias_chain, htin']
    have hname : nameOf doc u = var.name := by unfold nameOf; rw [hvar]
    rw [resolve_step_alias hu hvar hval hext, hrec]
    simp [hname]
  | cons v rest ih =>
    intro u t visited fuel hnd hdisj hwalk htin hfuel
    obtain ⟨f, rfl⟩ : ∃ f, fuel = f + 1 := ⟨fuel - 1, by simp at hfuel; omega⟩
    obtain ⟨hstep, hwalk'⟩ := hwalk
    obtain ⟨var, hvar, hval, hext⟩ := stepTo_inv hstep
    have hu : u ∉ visited := hdisj u (List.mem_cons_self u _)
    have hunotin : u ∉ v :: rest := (List.nodup_cons.mp hnd).1
    have hrec : resolve_alias_chain doc f v mid (u :: visited) =
        some ⟨false, none, (v :: rest).map (nameOf doc) ++ ["CIRCULAR: " ++ t]⟩ := by
      apply ih v t (u :: visited) f (List.nodup_cons.mp hnd).2
      · intro x hx
        simp only [List.mem_cons, not_or]
        constructor
        · intro hxu; subst hxu; exact hunotin hx
        · exact hdisj x (List.mem_cons_of_mem u hx)
      · exact hwalk'
      · rcases htin with h | h
        · exact Or.inl (List.mem_cons_of_mem u h)
        · rcases List.mem_cons.mp h with h | h
          · subst h; exact Or.inl (List.mem_cons_self t visited)
          · exact Or.inr h
      · simp at hfuel ⊢; omega
    have hname : nameOf doc u = var.name := by unfold nameOf; rw [hvar]
    rw [resolve_step_alias hu hvar hval hext, hrec]
    simp [hname]

/-- Builds `okWalk` for a window of an infinite successor sequence. -/
lemma okWalk_fn (doc : Document) (mid : String) (w : ℕ → String) :
    ∀ (n s : ℕ), 0 < n →
      (∀ i, s ≤ i → i < s + n → stepTo doc mid (w i) = some (w (i + 1))) →
      okWalk doc mid ((List.range' s n).map w) (w (s + n)) := by
  intro n
  induction n with
  | zero => intro s h; omega
  | succ m ih =>
    intro s _ hstep
    rcases Nat.eq_zero_or_pos m with hm | hm
    · subst hm
      show okWalk doc mid ((List.range' s 1).map w) (w (s + 1))
      have h1 : (List.range' s 1).map w = [w s] := by simp
      rw [h1]
      show stepTo doc mid (w s) = some (w (s + 1))
      exact hstep s le_rfl (by omega)
    · obtain ⟨m', rfl⟩ : ∃ m', m = m' + 1 := ⟨m - 1, by omega⟩
      rw [List.range'_succ s (m' + 1) 1, List.map_cons,
        List.range'_succ (s + 1) m' 1, List.map_cons]
      refine ⟨hstep s le_rfl (by omega), ?_⟩
      have hrec := ih (s + 1) (by omega)
        (fun i hi1 hi2 => hstep i (by omega) (by omega))
      rw [List.range'_succ (s + 1) m' 1, List.map_cons] at hrec
      have harith : s + 1 + (m' + 1) = s + (m' + 1 + 1) := by omega
      rw [harith] at hrec
      exact hrec

/-- C4. If the alias chain of `vid` in mode `mid` loops back to `vid`
(in `k > 0` resolver steps), then `resolve_alias_chain` — run with the
document-size fuel bound, which this theorem shows is never
exhausted — returns a `Circular` failure whose diagnostic path contains
`vid`'s entry exactly once (as the head, with `vid` not among the other
visited ids) before the `CIRCULAR` marker, instead of recursing forever. -/
theorem resolve_circular (doc : Document) (mid vid : String) (k : ℕ)
    (hk : 0 < k) (hcyc : stepIter doc mid k vid = some vid) :
    ∃ ws : List String, vid ∉ ws ∧
      resolve_alias_chain doc ((docVars doc).length + 1) vid mid [] =
        some ⟨false, none,
          (vid :: ws).map (nameOf doc) ++ ["CIRCULAR: " ++ vid]⟩ := by
  classical
  have hex : ∃ n, 0 < n ∧ stepIter doc mid n vid = some vid := ⟨k, hk, hcyc⟩
  obtain ⟨hk0pos, hk0cyc⟩ := Nat.find_spec hex
  set k0 := Nat.find hex with hk0def
  have hmin : ∀ m, m < k0 → ¬(0 < m ∧ stepIter doc mid m vid = some vid) :=
    fun m hm => Nat.find_min hex hm
  -- every prefix of the cycle is defined
  have hdef : ∀ i, i ≤ k0 → ∃ u, stepIter doc mid i vid = some u := by
    intro i hi
    have hsplit : i + (k0 - i) = k0 := by omega
    have hc := hk0cyc
    rw [← hsplit, stepIter_add] at hc
    rcases hu : stepIter doc mid i vid with _ | u
    · rw [hu] at hc; cases hc
    · exact ⟨u, rfl⟩
  set w : ℕ → String := fun i => (stepIter doc mid i vid).getD vid with hwdef
  have hw : ∀ i, i ≤ k0 → stepIter doc mid i vid = some (w i) := by
    intro i hi
    obtain ⟨u, hu⟩ := hdef i hi
    simp [hwdef, hu]
  have hw0 : w 0 = vid := by simp [hwdef, stepIter]
  have hwk : w k0 = vid := by simp [hwdef, hk0cyc]
  have hstep : ∀ i, i < k0 → stepTo doc mid (w i) = some (w (i + 1)) := by
    intro i hi
    have h1 := hw (i + 1) (by omega)
    rw [stepIter_succ_right, hw i (by omega)] at h1
    simpa using h1
  -- the orbit is injective below the minimal period
  have hinj : ∀ i j, i < j → j < k0 → w i = w j → False := by
    intro i j hij hj heq
    have hdecomp : stepIter doc mid (k0 - j) (w j) = some vid := by
      have hc := hk0cyc
      rw [show k0 = j + (k0 - j) by omega, stepIter_add, hw j (by omega)] at hc
      · simpa using hc
    have hshort : stepIter doc mid (i + (k0 - j)) vid = some vid := by
      rw [stepIter_add, hw i (by omega)]
      show stepIter doc mid (k0 - j) (w i) = some vid
      rw [heq]
      exact hdecomp
    exact hmin (i + (k0 - j)) (by omega) ⟨by omega, hshort⟩
  -- the chain of visited ids, in order
  set us := (List.range k0).map w with husdef
  have huslen : us.length = k0 := by simp [husdef]
  have husnodup : us.Nodup := by
    refine (List.nodup_range k0).map_on ?_
    intro x hx y hy hxy
    rw [List.mem_range] at hx hy
    by_contra hne
    rcases Nat.lt_or_ge x y with h | h
    · exact hinj x y h hy hxy
    · exact hinj y x (by omega) hx hxy.symm
  obtain ⟨k1, hk1⟩ : ∃ k1, k0 = k1 + 1 := ⟨k0 - 1, by omega⟩
  have huscons : us = w 0 :: (List.range' 1 k1).map w := by
    rw [husdef, List.range_eq_range', hk1, List.range'_succ 0 k1 1, List.map_cons]
  have hwalkus : okWalk doc mid us vid := by
    have h1 := okWalk_fn doc mid w k0 0 hk0pos
      (fun i hi1 hi2 => hstep i (by omega))
    rw [Nat.zero_add, hwk] at h1
    rw [husdef, List.range_eq_range']
    exact h1
  -- every orbit element is a document id, bounding the chain length
  have hsub : us.toFinset ⊆ docIds doc := by
    intro x hx
    rw [List.mem_toFinset, husdef, List.mem_map] at hx
    obtain ⟨i, hi, rfl⟩ := hx
    rw [List.mem_range] at hi
    obtain ⟨var, hvar, _, _⟩ := stepTo_inv (hstep i hi)
    exact mem_docIds_of_lookup hvar
  have hk0le : k0 ≤ (docVars doc).length := by
    have h1 : us.toFinset.card = us.length := List.toFinset_card_of_nodup husnodup
    have h2 : us.toFinset.card ≤ (docIds doc).card := Finset.card_le_card hsub
    have h3 : (docIds doc).card ≤ (docVars doc).length := by
      unfold docIds
      simpa using List.toFinset_card_le ((docVars doc).map (fun v => v.id))
    omega
  have husvid : us = vid :: (List.range' 1 k1).map w := by rw [huscons, hw0]
  refine ⟨(List.range' 1 k1).map w, ?_, ?_⟩
  · have hnd := husvid ▸ husnodup
    exact (List.nodup_cons.mp hnd).1
  · have hnd := husvid ▸ husnodup
    have hwalk' : okWalk doc mid (vid :: (List.range' 1 k1).map w) vid := by
      rw [← husvid]; exact hwalkus
    have hlen : (vid :: (List.range' 1 k1).map w).length < (docVars doc).length + 1 := by
      have := huslen
      rw [husvid] at this
      omega
    exact resolve_walk doc mid ((List.range' 1 k1).map w) vid vid [] _
      hnd (by intro x _; simp) hwalk'
      (Or.inr (List.mem_cons_self vid _)) hlen

/-- Witness for `resolve_circular`: in the two-element cycle document the
chain from `"a"` closes in two steps and the resolver reports the
circular path `["A", "B", "CIRCULAR: a"]`. -/
theorem resolve_circular_witness :
    (0 < 2 ∧ stepIter cycDoc "m1" 2 "a" = some "a") ∧
    ∃ ws : List String, "a" ∉ ws ∧
      resolve_alias_chain cycDoc ((docVars cycDoc).length + 1) "a" "m1" [] =
        some ⟨false, none,
          ("a" :: ws).map (nameOf cycDoc) ++ ["CIRCULAR: " ++ "a"]⟩ :=
  ⟨⟨by decide, by decide⟩, resolve_circular cycDoc "m1" "a" 2 (by decide) (by decide)⟩

/-! ## Validation (`AliasValidator.validate_collection`) -/

/-- `startsList l pat`: `pat` is an initial segment of `l`. -/
def startsList : List Char → List Char → Bool
  | _, [] => true
  | [], _ :: _ => false
  | c :: cs, p :: ps => c = p && startsList cs ps

/-- Python's `pat in s` substring test. -/
def hasSubList (pat : List Char) : List Char → Bool
  | [] => startsList [] pat
  | c :: rest => startsList (c :: rest) pat || hasSubList pat rest

def strContainsSub (s pat : String) : Bool :=
  hasSubList pat.data s.data

/-- The counter record built by `validate_collection`. -/
structure VResults where
  collection_name : String
  total_variables : ℕ
  valid_chains : ℕ
  broken_chains : ℕ
  circular_refs : ℕ
  external_refs : ℕ
  white_colors : ℕ
  proper_colors : ℕ
  broken_examples : List (String × String)
  error : Option String
deriving DecidableEq, Repr

/-- The resolver as `validate_collection` calls it: fresh empty visited
set, and fuel one more than the total variable count — enough, by the
termination argument, that it is never exhausted, so the `getD` default
is dead code. -/
def resolveRun (doc : Document) (vid mid : String) : RRes :=
  (resolve_alias_chain doc ((docVars doc).length + 1) vid mid []).getD
    ⟨false, none, []⟩

/-- The per-variable body of `validate_collection`'s loop. -/
def validate_step (doc : Document) (mid : String) (res : VResults)
    (var : Variable) : VResults :=
  let res := { res with total_variables := res.total_variables + 1 }
  let r := resolveRun doc var.id mid
  if r.success then
    let res := { res with valid_chains := res.valid_chains + 1 }
    -- `if final_value:` — then r/g/b are read with `.get(…, 0)` defaults
    match r.value with
    | some (Value.color cr cg cb _) =>
        if cr = 1 ∧ cg = 1 ∧ cb = 1 then
          { res with white_colors := res.white_colors + 1 }
        else { res with proper_colors := res.proper_colors + 1 }
    | some (Value.aliasV _) =>
        -- truthy dict without r/g/b keys: defaults 0, counted proper
        -- (unreachable: success implies a color value, `resolve_success_color`)
        { res with proper_colors := res.proper_colors + 1 }
    | some Value.other =>
        { res with proper_colors := res.proper_colors + 1 }
    | some Value.falsy => res
    | none => res
  else
    let res := { res with broken_chains := res.broken_chains + 1 }
    let res :=
      if r.path.any (fun st => strContainsSub st "CIRCULAR") then
        { res with circular_refs := res.circular_refs + 1 }
      else if r.path.any (fun st => strContainsSub st "EXTERNAL_REF") then
        { res with external_refs := res.external_refs + 1 }
      else res
    if res.broken_examples.length < 5 then
      { res with broken_examples :=
          res.broken_examples ++ [(var.name, String.intercalate " -> " r.path)] }
    else res

def validate_collection (doc : Document) (collection_name : String) : VResults :=
  let res0 : VResults := ⟨collection_name, 0, 0, 0, 0, 0, 0, 0, [], none⟩
  match doc.collections.find? (fun c => c.name = collection_name) with
  | none => { res0 with error := some "Collection not found" }
  | some coll =>
    match coll.modes with
    | [] => { res0 with error := some "No modes found" }
    | mode0 :: _ =>
      coll.vars.foldl (fun res var => validate_step doc mode0.modeId res var) res0

/-- A successful resolution always carries a direct color value. -/
lemma resolve_success_color (doc : Document) (mid : String) :
    ∀ (fuel : ℕ) (vid : String) (visited : List String) (r : RRes),
      resolve_alias_chain doc fuel vid mid visited = some r →
      r.success = true →
      ∃ c1 c2 c3 c4, r.value = some (Value.color c1 c2 c3 c4) := by
  intro fuel
  induction fuel with
  | zero => intro vid visited r h; cases h
  | succ n ih =>
    intro vid visited r h hs
    by_cases hvis : vid ∈ visited
    · simp [resolve_alias_chain, hvis] at h
      rw [← h] at hs; cases hs
    rcases hvar : variablesById doc vid with _ | var
    · simp [resolve_alias_chain, hvis, hvar] at h
      rw [← h] at hs; cases hs
    rcases hval : alookup var.valuesByMode mid with _ | v
    · simp [resolve_alias_chain, hvis, hvar, hval] at h
      rw [← h] at hs; cases hs
    cases v with
    | color c1 c2 c3 c4 =>
      simp [resolve_alias_chain, hvis, hvar, hval] at h
      rw [← h]
      exact ⟨c1, c2, c3, c4, rfl⟩
    | falsy =>
      simp [resolve_alias_chain, hvis, hvar, hval] at h
      rw [← h] at hs; cases hs
    | other =>
      simp [resolve_alias_chain, hvis, hvar, hval] at h
      rw [← h] at hs; cases hs
    | aliasV t =>
      by_cases hext : strHasChar t '/'
      · simp [resolve_alias_chain, hvis, hvar, hval, hext] at h
        rw [← h] at hs; cases hs
      · rcases hrec : resolve_alias_chain doc n t mid (vid :: visited) with _ | sub
        · simp [resolve_alias_chain, hvis, hvar, hval, hext, hrec] at h
        · simp [resolve_alias_chain, hvis, hvar, hval, hext, hrec] at h
          rw [← h] at hs
          obtain ⟨c1, c2, c3, c4, hv⟩ := ih t (vid :: visited) sub hrec hs
          rw [← h]
          exact ⟨c1, c2, c3, c4, hv⟩

lemma resolveRun_success_color (doc : Document) (vid mid : String)
    (hs : (resolveRun doc vid mid).success = true) :
    ∃ c1 c2 c3 c4,
      (resolveRun doc vid mid).value = some (Value.color c1 c2 c3 c4) := by
  unfold resolveRun at hs ⊢
  rcases h : resolve_alias_chain doc ((docVars doc).length + 1) vid mid [] with _ | r
  · rw [h] at hs
    simp at hs
  · rw [h] at hs
    simp only [Option.getD_some] at hs ⊢
    exact resolve_success_color doc mid _ vid [] r h hs

lemma validate_step_pres (doc : Document) (mid : String) (res : VResults)
    (var : Variable)
    (h1 : res.total_variables = res.valid_chains + res.broken_chains)
    (h2 : res.valid_chains = res.white_colors + res.proper_colors) :
    (validate_step doc mid res var).total_variables =
      (validate_step doc mid res var).valid_chains +
        (validate_step doc mid res var).broken_chains ∧
    (validate_step doc mid res var).valid_chains =
      (validate_step doc mid res var).white_colors +
        (validate_step doc mid res var).proper_colors := by
  rcases hs : (resolveRun doc var.id mid).success with _ | _
  · simp only [validate_step, hs, Bool.false_eq_true, if_false]
    split_ifs <;> simp <;> omega
  · obtain ⟨c1, c2, c3, c4, hv⟩ := resolveRun_success_color doc var.id mid hs
    simp only [validate_step, hs, hv, if_true]
    split_ifs <;> simp <;> omega

lemma validate_fold_pres (doc : Document) (mid : String) :
    ∀ (l : List Variable) (res : VResults),
      res.total_variables = res.valid_chains + res.broken_chains →
      res.valid_chains = res.white_colors + res.proper_colors →
      ((l.foldl (fun res var => validate_step doc mid res var) res).total_variables =
        (l.foldl (fun res var => validate_step doc mid res var) res).valid_chains +
          (l.foldl (fun res var => validate_step doc mid res var) res).broken_chains ∧
      (l.foldl (fun res var => validate_step doc mid res var) res).valid_chains =
        (l.foldl (fun res var => validate_step doc mid res var) res).white_colors +
          (l.foldl (fun res var => validate_step doc mid res var) res).proper_colors) := by
  intro l
  induction l with
  | nil => intro res h1 h2; exact ⟨h1, h2⟩
  | cons v tl ih =>
    intro res h1 h2
    simp only [List.foldl_cons]
    obtain ⟨g1, g2⟩ := validate_step_pres doc mid res v h1 h2
    exact ih _ g1 g2

/-- C9. For every document and collection name, the counters of
`validate_collection` partition the examined variables: the total equals
valid plus broken chains, and the valid chains split exactly into white
and proper colors. -/
theorem validate_collection_partition (doc : Document) (cname : String) :
    (validate_collection doc cname).total_variables =
      (validate_collection doc cname).valid_chains +
        (validate_collection doc cname).broken_chains ∧
    (validate_collection doc cname).valid_chains =
      (validate_collection doc cname).white_colors +
        (validate_collection doc cname).proper_colors := by
  unfold validate_collection
  rcases hc : doc.collections.find? (fun c => c.name = cname) with _ | coll
  · simp only [hc]
    simp
  · simp only [hc]
    rcases hm : coll.modes with _ | ⟨mode0, rest⟩
    · simp only [hm]
      simp
    · simp only [hm]
      exact validate_fold_pres doc mode0.modeId coll.vars _ rfl rfl

/-! ## OKLCH → sRGB conversion (`oklch_to_rgb`)

Shared verbatim by `fix_all_white_colors.py` and
`fix_figma_variable_colors.py`.  Python float arithmetic is modelled
exactly over ℚ; the transcendental operations `math.cos`, `math.sin` and
`x ** (1/2.4)` are taken as function parameters (`cosF`, `sinF`,
`powInv24`).  IEEE 754 guarantees `1.0 ** y = 1.0`, which is the only
fact about `powInv24` the achromatic theorem needs. -/

def clamp01 (v : ℚ) : ℚ := max 0 (min 1 v)

/-- The inner `linear_to_srgb` (gamma encoding with clamp). -/
def linear_to_srgb (powInv24 : ℚ → ℚ) (val : ℚ) : ℚ :=
  let val := clamp01 val
  if val ≤ 0.0031308 then val * 12.92
  else 1.055 * powInv24 val - 0.055

/-- The numeric core of `oklch_to_rgb` after parsing: `L` is the 0–1
lightness (the percentage already divided by 100), `Hdeg` the hue in
degrees (converted to radians with `math.pi`'s decimal value), followed
by the two fixed matrices, cubing, and gamma encoding. -/
def oklch_convert (cosF sinF powInv24 : ℚ → ℚ) (L C Hdeg : ℚ) : ℚ × ℚ × ℚ :=
  let H := Hdeg * 3.141592653589793 / 180
  let a := C * cosF H
  let b := C * sinF H
  let l_ := L + 0.3963377774 * a + 0.2158037573 * b
  let m_ := L - 0.1055613458 * a - 0.0638541728 * b
  let s_ := L - 0.0894841775 * a - 1.2914855480 * b
  let l := l_ * l_ * l_
  let m := m_ * m_ * m_
  let s := s_ * s_ * s_
  let r_lin := 4.0767416621 * l - 3.3077115913 * m + 0.2309699292 * s
  let g_lin := -1.2684380046 * l + 2.6097574011 * m - 0.3413193965 * s
  let b_lin := -0.0041960863 * l - 0.7034186147 * m + 1.7076147010 * s
  (linear_to_srgb powInv24 r_lin, linear_to_srgb powInv24 g_lin,
    linear_to_srgb powInv24 b_lin)

/-- C7. With zero chroma the hue is irrelevant (it only enters scaled by
the chroma), and the lightness extremes map exactly to black and white:
`convert(0,0,H) = (0,0,0)` and `convert(1,0,H) = (1,1,1)` for every hue
`H` and every model of `cos`/`sin`/`x ** (1/2.4)` with `powInv24 1 = 1`.
(In the exact-arithmetic model of Python floats; the double-precision
code agrees to within one ulp, and callers round to 4 decimals.) -/
theorem oklch_convert_achromatic (cosF sinF powInv24 : ℚ → ℚ)
    (hpow : powInv24 1 = 1) (H : ℚ) :
    oklch_convert cosF sinF powInv24 0 0 H = (0, 0, 0) ∧
    oklch_convert cosF sinF powInv24 1 0 H = (1, 1, 1) := by
  constructor
  · norm_num [oklch_convert, linear_to_srgb, clamp01]
  · norm_num [oklch_convert, linear_to_srgb, clamp01, hpow]

theorem oklch_convert_achromatic_witness :
    (fun x : ℚ => x) 1 = 1 ∧
    oklch_convert (fun x => x) (fun x => x) (fun x => x) 0 0 37 = (0, 0, 0) ∧
    oklch_convert (fun x => x) (fun x => x) (fun x => x) 1 0 37 = (1, 1, 1) :=
  ⟨rfl, (oklch_convert_achromatic (fun x => x) (fun x => x) (fun x => x) rfl 37).1,
    (oklch_convert_achromatic (fun x => x) (fun x => x) (fun x => x) rfl 37).2⟩

/-! ### The string front end of `oklch_to_rgb` -/

/-- Python's `\s` (ASCII part). -/
def isSpaceChar (c : Char) : Bool :=
  c == ' ' || c == '\t' || c == '\n' || c == '\r' || c == '\x0b' || c == '\x0c'

/-- `re.match(r'oklch\(([^)]+)\)', s)`, returning group 1: the string
must start with `oklch(`, followed by a nonempty run of characters other
than `)`, then `)` (anything after is ignored by `re.match`). -/
def regexOklch (s : String) : Option String :=
  if startsList s.data ("oklch(".data) then
    let rest := s.data.drop 6
    let content := rest.takeWhile (fun c => c != ')')
    if content.isEmpty then none
    else if (rest.drop content.length).isEmpty then none
    else some (String.mk content)
  else none

/-- Python's `str.split()`: split on whitespace runs, no empty fields. -/
def pySplitAux : List Char → List Char → List String
  | [], cur => if cur.isEmpty then [] else [String.mk cur.reverse]
  | c :: rest, cur =>
    if isSpaceChar c then
      if cur.isEmpty then pySplitAux rest []
      else String.mk cur.reverse :: pySplitAux rest []
    else pySplitAux rest (c :: cur)

def pySplit (s : String) : List String := pySplitAux s.data []

def digitsToNat (l : List Char) : ℕ :=
  l.foldl (fun n c => n * 10 + (c.toNat - 48)) 0

/-- Model of Python `float(str)`: optional sign, decimal digits with
optional fraction and optional exponent; anything else raises
(`none` here).  (`inf`/`nan`, digit underscores and surrounding
whitespace are not modelled; the palette strings never use them.) -/
def pyFloat? (s : String) : Option ℚ :=
  let sl : ℚ × List Char :=
    match s.data with
    | '+' :: r => (1, r)
    | '-' :: r => (-1, r)
    | r => (1, r)
  let sign := sl.1
  let l1 := sl.2
  let ip := l1.takeWhile Char.isDigit
  let l2 := l1.drop ip.length
  let fl : List Char × List Char :=
    match l2 with
    | '.' :: r => (r.takeWhile Char.isDigit, r.dropWhile Char.isDigit)
    | r => ([], r)
  let fp := fl.1
  let l3 := fl.2
  if ip.isEmpty && fp.isEmpty then none
  else
    let mant : ℚ := (digitsToNat ip : ℚ) + (digitsToNat fp : ℚ) / ((10 : ℚ) ^ fp.length)
    match l3 with
    | [] => some (sign * mant)
    | 'e' :: r | 'E' :: r =>
      let esl : ℤ × List Char :=
        match r with
        | '+' :: rr => (1, rr)
        | '-' :: rr => (-1, rr)
        | rr => (1, rr)
      let ed := esl.2.takeWhile Char.isDigit
      if ed.isEmpty || !(esl.2.drop ed.length).isEmpty then none
      else some (sign * mant * (10 : ℚ) ^ (esl.1 * (digitsToNat ed : ℤ)))
    | _ => none

/-- Python `str.rstrip('%')`. -/
def rstripPct (s : String) : String :=
  String.mk (s.data.reverse.dropWhile (fun c => c == '%')).reverse

/-- Python control flow of the converter: `ok` is a normal return,
`exn` an uncaught `ValueError` from `float()`. -/
inductive PyRes (α : Type) where
  | ok : α → PyRes α
  | exn : PyRes α
deriving DecidableEq, Repr

/-- `oklch_to_rgb` (fix_all_white_colors.py lines 24–77): a string that
fails the `oklch(...)` pattern or has fewer than three fields returns
black `(0,0,0)`; otherwise the first field is stripped of trailing `%`
and the three fields go through `float()` — which raises on non-numeric
input — then the percentage is divided by 100 and converted. -/
def oklch_to_rgb (cosF sinF powInv24 : ℚ → ℚ) (s : String) : PyRes (ℚ × ℚ × ℚ) :=
  match regexOklch s with
  | none => PyRes.ok (0, 0, 0)
  | some content =>
    let parts := pySplit content
    if parts.length < 3 then PyRes.ok (0, 0, 0)
    else
      match pyFloat? (rstripPct (parts.getD 0 "")),
            pyFloat? (parts.getD 1 ""), pyFloat? (parts.getD 2 "") with
      | some L, some C, some H =>
          PyRes.ok (oklch_convert cosF sinF powInv24 (L / 100) C H)
      | _, _, _ => PyRes.exn

/-- C8 counterexample: `"oklch(a b c)"` matches the `oklch(...)` pattern
with three fields, but `float('a')` raises `ValueError`, so the
converter fails instead of returning a color or black — refuting "no
failure mode other than a malformed input string (in which case callers
treat it as black)". -/
theorem oklch_to_rgb_exn_counterexample :
    oklch_to_rgb (fun x => x) (fun x => x) (fun x => x) "oklch(a b c)" = PyRes.exn ∧
    ∀ t : ℚ × ℚ × ℚ, oklch_to_rgb (fun x => x) (fun x => x) (fun x => x) "oklch(a b c)"
      ≠ PyRes.ok t := by
  refine ⟨by decide, ?_⟩
  intro t h
  rw [show oklch_to_rgb (fun x => x) (fun x => x) (fun x => x) "oklch(a b c)" = PyRes.exn
    from by decide] at h
  cases h

/-- C8 (amended). The converter is total *except* for the numeric-parse
stage: a string that fails the `oklch(...)` pattern, or matches it with
fewer than three fields, returns black `(0,0,0)`; and an exception
occurs exactly when the pattern matches with at least three fields and
one of the first three fields does not parse as a number. -/
theorem oklch_to_rgb_total (cosF sinF powInv24 : ℚ → ℚ) (s : String) :
    (regexOklch s = none → oklch_to_rgb cosF sinF powInv24 s = PyRes.ok (0, 0, 0)) ∧
    (∀ content, regexOklch s = some content → (pySplit content).length < 3 →
      oklch_to_rgb cosF sinF powInv24 s = PyRes.ok (0, 0, 0)) ∧
    (oklch_to_rgb cosF sinF powInv24 s = PyRes.exn ↔
      ∃ content, regexOklch s = some content ∧ 3 ≤ (pySplit content).length ∧
        (pyFloat? (rstripPct ((pySplit content).getD 0 "")) = none ∨
         pyFloat? ((pySplit content).getD 1 "") = none ∨
         pyFloat? ((pySplit content).getD 2 "") = none)) := by
  rcases hr : regexOklch s with _ | content
  · refine ⟨fun _ => by simp [oklch_to_rgb, hr], ?_, ?_⟩
    · intro c hc
      exact Option.noConfusion hc
    · constructor
      · intro h
        simp [oklch_to_rgb, hr] at h
      · rintro ⟨c, hc, -, -⟩
        exact Option.noConfusion hc
  · refine ⟨fun h => Option.noConfusion h, ?_, ?_⟩
    · intro c hc hlen
      injection hc with hc
      subst hc
      simp [oklch_to_rgb, hr, hlen]
    · by_cases hlen : (pySplit content).length < 3
      · have heq : oklch_to_rgb cosF sinF powInv24 s = PyRes.ok (0, 0, 0) := by
          simp [oklch_to_rgb, hr, hlen]
        rw [heq]
        constructor
        · intro h; cases h
        · rintro ⟨c, hc, h3, -⟩
          injection hc with hc
          subst hc
          omega
      · rcases h0 : pyFloat? (rstripPct ((pySplit content)[0]?.getD "")) with _ | L
        · have heq : oklch_to_rgb cosF sinF powInv24 s = PyRes.exn := by
            simp [oklch_to_rgb, hr, hlen, h0]
          rw [heq]
          simp only [true_iff]
          exact ⟨content, rfl, by omega, Or.inl (by rw [List.getD_eq_getElem?_getD]; exact h0)⟩
        · rcases h1 : pyFloat? ((pySplit content)[1]?.getD "") with _ | C
          · have heq : oklch_to_rgb cosF sinF powInv24 s = PyRes.exn := by
              simp [oklch_to_rgb, hr, hlen, h0, h1]
            rw [heq]
            simp only [true_iff]
            exact ⟨content, rfl, by omega,
              Or.inr (Or.inl (by rw [List.getD_eq_getElem?_getD]; exact h1))⟩
          · rcases h2 : pyFloat? ((pySplit content)[2]?.getD "") with _ | Hv
            · have heq : oklch_to_rgb cosF sinF powInv24 s = PyRes.exn := by
                simp [oklch_to_rgb, hr, hlen, h0, h1, h2]
              rw [heq]
              simp only [true_iff]
              exact ⟨content, rfl, by omega,
                Or.inr (Or.inr (by rw [List.getD_eq_getElem?_getD]; exact h2))⟩
            · have heq : oklch_to_rgb cosF sinF powInv24 s =
                  PyRes.ok (oklch_convert cosF sinF powInv24 (L / 100) C Hv) := by
                simp [oklch_to_rgb, hr, hlen, h0, h1, h2]
              rw [heq]
              constructor
              · intro h; cases h
              · rintro ⟨c, hc, -, hbad⟩
                injection hc with hc
                subst hc
                rw [List.getD_eq_getElem?_getD, List.getD_eq_getElem?_getD,
                  List.getD_eq_getElem?_getD] at hbad
                rcases hbad with hb | hb | hb
                · rw [h0] at hb; cases hb
                · rw [h1] at hb; cases hb
                · rw [h2] at hb; cases hb

/-- Witness for `oklch_to_rgb_total`: the black fallback on a
non-matching string and on a matching string with too few fields. -/
theorem oklch_to_rgb_total_witness :
    oklch_to_rgb (fun x => x) (fun x => x) (fun x => x) "xyz" = PyRes.ok (0, 0, 0) ∧
    oklch_to_rgb (fun x => x) (fun x => x) (fun x => x) "oklch(50% 0.1)" = PyRes.ok (0, 0, 0) :=
  ⟨(oklch_to_rgb_total (fun x => x) (fun x => x) (fun x => x) "xyz").1 (by decide),
   (oklch_to_rgb_total (fun x => x) (fun x => x) (fun x => x) "oklch(50% 0.1)").2.1
     "50% 0.1" (by decide) (by decide)⟩

/-! ## Repair passes

`fix_external_references.py` (v1), `fix_external_references_v2.py` and
`fix_all_white_colors.py`.  In-place mutation of the loaded document is
modelled as a `Document → Document` function. -/

/-- Python `str.split('/')` (single-character separator, empties kept). -/
def splitSlashAux : List Char → List Char → List String
  | [], cur => [String.mk cur.reverse]
  | x :: rest, cur =>
    if x == '/' then String.mk cur.reverse :: splitSlashAux rest []
    else splitSlashAux rest (x :: cur)

def splitOnSlash (s : String) : List String := splitSlashAux s.data []

/-- Python `str.lower()` (ASCII). -/
def strLower (s : String) : String := String.mk (s.data.map Char.toLower)

/-- `WEIGHT_ALPHA_MAP`, identical in v1 and v2. -/
def WEIGHT_ALPHA_MAP : List (String × ℚ) :=
  [("Surface", 0.08), ("Minimal", 0.15), ("Low", 0.55), ("Medium", 0.77),
   ("High", 0.87), ("Heavy", 0.93), ("Bold", 0.92), ("Bold A11Y", 1.0)]

/-- `get_alpha_for_weight`, identical in v1 and v2 (v1 prints a warning
before the default, v2 does not — output only): exact key match, then
the first map key that is a substring of the weight, then Medium. -/
def get_alpha_for_weight (weight : String) : ℚ :=
  match alookup WEIGHT_ALPHA_MAP weight with
  | some a => a
  | none =>
    match WEIGHT_ALPHA_MAP.find? (fun p => strContainsSub weight p.1) with
    | some p => p.2
    | none => 0.77

def GREY_RGB : ℚ × ℚ × ℚ := (1.0, 1.0, 1.0)

/-- First direct color value in `valuesByMode` iteration order (the
`break` in `extract_rgb_values_from_working_vars`); alpha is dropped. -/
def firstColorRGB : List (String × Value) → Option (ℚ × ℚ × ℚ)
  | [] => none
  | (_, Value.color r g b _) :: _ => some (r, g, b)
  | _ :: rest => firstColorRGB rest

/-- `extract_rgb_values_from_working_vars` (v1): for every variable whose
name contains `[Semi semantics]` and has at least two `/` segments, map
`color/value_level` to its first direct RGB.  Later variables overwrite
earlier bindings (dict assignment), modelled by consing the newest
binding to the front so `alookup` finds it first. -/
def extract_rgb_values_from_working_vars (coll : Collection) :
    List (String × (ℚ × ℚ × ℚ)) :=
  coll.vars.foldl
    (fun acc var =>
      let parts := splitOnSlash var.name
      if strContainsSub var.name "[Semi semantics]" && decide (2 ≤ parts.length) then
        match firstColorRGB var.valuesByMode with
        | some rgb => (parts.getD 0 "" ++ "/" ++ parts.getD 1 "", rgb) :: acc
        | none => acc
      else acc)
    []

/-- `get_rgb_for_variable` (v1): working-variable RGB for the
`color/value_level` key, else white (both for Grey and, with a printed
warning, as the general fallback). -/
def get_rgb_for_variable (var_name : String)
    (rgb_by_color_value : List (String × (ℚ × ℚ × ℚ))) :
    Option (ℚ × ℚ × ℚ) :=
  let parts := splitOnSlash var_name
  if parts.length < 2 then none
  else
    match alookup rgb_by_color_value (parts.getD 0 "" ++ "/" ++ parts.getD 1 "") with
    | some rgb => some rgb
    | none => if parts.getD 0 "" = "Grey" then some GREY_RGB else some GREY_RGB

/-- The v1/v2 external-reference test over a variable: some mode value is
a `VARIABLE_ALIAS` whose id contains `/`. -/
def hasExternalAlias (var : Variable) : Bool :=
  var.valuesByMode.any (fun p =>
    match p.2 with
    | Value.aliasV t => strHasChar t '/'
    | _ => false)

/-- The per-variable body of v1's `fix_external_references` loop. -/
def fixVarER (rgbMap : List (String × (ℚ × ℚ × ℚ))) (var : Variable) :
    Variable :=
  if strContainsSub var.name "[Semi semantics]" then var
  else if !hasExternalAlias var then var
  else
    let parts := splitOnSlash var.name
    if parts.length < 3 then var
    else
      match get_rgb_for_variable var.name rgbMap with
      | none => var
      | some rgb =>
        let alpha := get_alpha_for_weight (parts.getD 2 "")
        { var with valuesByMode :=
            (var.valuesByMode.map
              (fun p => (p.1, Value.color rgb.1 rgb.2.1 rgb.2.2 alpha))) }

/-- The Python `for coll in data['collections']: if coll['name'] == …:
…; break` pattern followed by in-place mutation of the found record:
only the first matching element is transformed. -/
def applyFirst {α : Type} (p : α → Bool) (f : α → α) : List α → List α
  | [] => []
  | x :: xs => if p x then f x :: xs else x :: applyFirst p f xs

def fix_external_references (doc : Document) : Document :=
  { collections :=
      (applyFirst (fun c => c.name == "00_Semi semantics")
        (fun c => { c with vars :=
          (c.vars.map (fixVarER (extract_rgb_values_from_working_vars c))) })
        doc.collections) }

/-- `COLOR_RGB_MAP` (v2). -/
def COLOR_RGB_MAP : List (String × (ℚ × ℚ × ℚ)) :=
  [("Grey", (1.0, 1.0, 1.0)),
   ("Indigo", (0.040, 0.000, 0.200)),
   ("Saffron", (0.110, 0.020, 0.000)),
   ("Green", (0.000, 0.070, 0.020)),
   ("Gold", (0.060, 0.050, 0.040)),
   ("Cabbage", (0.060, 0.050, 0.040)),
   ("Orange", (0.100, 0.030, 0.000)),
   ("Informative", (0.000, 0.050, 0.120)),
   ("Negative", (0.130, 0.000, 0.010)),
   ("Positive", (0.030, 0.060, 0.030)),
   ("Warning", (0.110, 0.020, 0.000)),
   ("Purple [700]", (0.060, 0.050, 0.040)),
   ("Sky [1200]", (0.000, 0.060, 0.100)),
   ("Sky [1000]", (0.000, 0.060, 0.100))]

/-- `get_rgb_for_color` (v2): exact key, else first key the color name
starts with, else Grey (white). -/
def get_rgb_for_color (color_name : String) : ℚ × ℚ × ℚ :=
  match alookup COLOR_RGB_MAP color_name with
  | some rgb => rgb
  | none =>
    match COLOR_RGB_MAP.find? (fun p => startsList color_name.data p.1.data) with
    | some p => p.2
    | none => (1.0, 1.0, 1.0)

/-- Model of Python `int(str)`: optional sign and decimal digits
(whitespace/underscores not modelled; the name segments are plain). -/
def pyInt? (s : String) : Option ℤ :=
  let sl : ℤ × List Char :=
    match s.data with
    | '+' :: r => (1, r)
    | '-' :: r => (-1, r)
    | r => (1, r)
  if sl.2.isEmpty || !(sl.2.all Char.isDigit) then none
  else some (sl.1 * (digitsToNat sl.2 : ℤ))

/-- The direct color v2 writes into every mode of a selected variable:
`get_rgb_for_color` of the first name segment, overridden to white for
numeric value levels ≥ 2100 (`int()` failures keep the color), with the
weight-derived alpha. -/
def erV2Replacement (name : String) : Value :=
  let parts := splitOnSlash name
  let rgb := get_rgb_for_color (parts.getD 0 "")
  let rgb :=
    match pyInt? (parts.getD 1 "") with
    | some n => if 2100 ≤ n then GREY_RGB else rgb
    | none => rgb
  Value.color rgb.1 rgb.2.1 rgb.2.2 (get_alpha_for_weight (parts.getD 2 ""))

/-- The per-variable body of v2's `fix_external_references` loop. -/
def fixVarER2 (var : Variable) : Variable :=
  if strContainsSub var.name "[Semi semantics]" then var
  else if !hasExternalAlias var then var
  else if (splitOnSlash var.name).length < 3 then var
  else
    { var with valuesByMode :=
        (var.valuesByMode.map (fun p => (p.1, erV2Replacement var.name))) }

def fix_external_references_v2 (doc : Document) : Document :=
  { collections :=
      (applyFirst (fun c => c.name == "00_Semi semantics")
        (fun c => { c with vars := (c.vars.map fixVarER2) })
        doc.collections) }

/-! ### `fix_all_white_colors.py` -/

def isWordChar (c : Char) : Bool := c.isAlphanum || c == '_'

/-- `re.search(r'/(\d{3,4})/', name)`: leftmost `/` followed by three or
four digits (greedily preferring four) and another `/`. -/
def findStep34 : List Char → Option String
  | [] => none
  | '/' :: rest =>
    let d := rest.takeWhile Char.isDigit
    if 4 ≤ d.length && (rest.getD 4 ' ') == '/' then some (String.mk (d.take 4))
    else if 3 ≤ d.length && (rest.getD 3 ' ') == '/' then some (String.mk (d.take 3))
    else findStep34 rest
  | _ :: rest => findStep34 rest

def known_palettes : List String :=
  ["grey", "indigo", "gold", "saffron", "green", "red", "blue"]

/-- `extract_color_info_from_name`: first the anchored patterns
`^(\w+)/(\d+)/` and `^(\w+)/(\d+)\s` (same prefix, so combined on the
terminator character), then the known-palette fallback with the
`/(\d{3,4})/` step search. -/
def extract_color_info_from_name (var_name : String) :
    Option String × Option String :=
  let l := var_name.data
  let w := l.takeWhile isWordChar
  let afterw := l.drop w.length
  let patres : Option (String × String) :=
    if w.isEmpty then none
    else
      match afterw with
      | '/' :: rest =>
        let d := rest.takeWhile Char.isDigit
        if d.isEmpty then none
        else
          match rest.drop d.length with
          | c :: _ =>
            if c == '/' || isSpaceChar c then
              some (strLower (String.mk w), String.mk d)
            else none
          | [] => none
      | _ => none
  match patres with
  | some ps => (some ps.1, some ps.2)
  | none =>
    match known_palettes.find?
        (fun p => startsList (strLower var_name).data (p ++ "/").data) with
    | some palette =>
      match findStep34 var_name.data with
      | some st => (some palette, some st)
      | none => (some palette, none)
    | none => (none, none)

/-- Python `round(x, 4)` (round half to even, exact over ℚ). -/
def roundHalfEven (y : ℚ) : ℤ :=
  let f : ℤ := ⌊y⌋
  let r : ℚ := y - f
  if r < 1/2 then f
  else if 1/2 < r then f + 1
  else if 2 ∣ f then f else f + 1

def round4 (x : ℚ) : ℚ := (roundHalfEven (x * 10000) : ℚ) / 10000

/-- The per-mode body of `fix_all_white_colors`' inner loop: a direct
color that is exactly white `(1,1,1)` and has a palette replacement for
the name-derived family and step is overwritten (replacement RGB rounded
to 4 decimals, alpha preserved); every other entry is left untouched. -/
def whiteFixEntry (palettes : List (String × List (String × (ℚ × ℚ × ℚ))))
    (info : Option String × Option String) (p : String × Value) :
    String × Value :=
  match p.2 with
  | Value.color r g b a =>
    if r = 1 ∧ g = 1 ∧ b = 1 then
      match info.1, info.2 with
      | some pn, some st =>
        match alookup palettes pn with
        | some pal =>
          match alookup pal st with
          | some rgb =>
            (p.1, Value.color (round4 rgb.1) (round4 rgb.2.1) (round4 rgb.2.2) a)
          | none => p
        | none => p
      | _, _ => p
    else p
  | _ => p

def fixVarWhite (palettes : List (String × List (String × (ℚ × ℚ × ℚ))))
    (var : Variable) : Variable :=
  { var with valuesByMode :=
      (var.valuesByMode.map
        (whiteFixEntry palettes (extract_color_info_from_name var.name))) }

/-- `fix_all_white_colors`: every collection, every variable, every mode
(`rangde_palettes_rgb` is the already-converted palette table). -/
def fix_all_white_colors
    (palettes : List (String × List (String × (ℚ × ℚ × ℚ))))
    (doc : Document) : Document :=
  { collections := (doc.collections.map
      (fun c => { c with vars := (c.vars.map (fixVarWhite palettes)) })) }

/-! ### Frame and scope of the repair passes -/

lemma applyFirst_getElem {α : Type} (p : α → Bool) (f : α → α) :
    ∀ (l : List α) (i : ℕ) (x : α), l[i]? = some x → p x = false →
      (applyFirst p f l)[i]? = some x := by
  intro l
  induction l with
  | nil =>
    intro i x h _
    rw [List.getElem?_nil] at h
    cases h
  | cons y ys ih =>
    intro i x h hp
    unfold applyFirst
    by_cases hy : p y = true
    · rw [if_pos hy]
      cases i with
      | zero =>
        rw [List.getElem?_cons_zero] at h
        injection h with h
        subst h
        rw [hy] at hp
        cases hp
      | succ j =>
        rw [List.getElem?_cons_succ] at h ⊢
        exact h
    · rw [if_neg hy]
      cases i with
      | zero =>
        rw [List.getElem?_cons_zero] at h ⊢
        exact h
      | succ j =>
        rw [List.getElem?_cons_succ] at h ⊢
        exact ih j x h hp

/-- C10. Both external-reference repair passes transform at most the
first collection named `"00_Semi semantics"`: any collection whose name
differs is returned untouched at its position, and inside the examined
collection a variable whose name contains `[Semi semantics]` is skipped
verbatim (by v1 with any extracted RGB table, and by v2). -/
theorem fix_external_references_scope (doc : Document) (i : ℕ)
    (c : Collection) (rgbMap : List (String × (ℚ × ℚ × ℚ))) (var : Variable)
    (hc : doc.collections[i]? = some c)
    (hname : c.name ≠ "00_Semi semantics")
    (hmark : strContainsSub var.name "[Semi semantics]" = true) :
    (fix_external_references doc).collections[i]? = some c ∧
    (fix_external_references_v2 doc).collections[i]? = some c ∧
    fixVarER rgbMap var = var ∧
    fixVarER2 var = var := by
  refine ⟨?_, ?_, ?_, ?_⟩
  · exact applyFirst_getElem _ _ doc.collections i c hc (by simp [hname])
  · exact applyFirst_getElem _ _ doc.collections i c hc (by simp [hname])
  · unfold fixVarER
    rw [if_pos hmark]
  · unfold fixVarER2
    rw [if_pos hmark]

/-- Witness collection/variable for the scope theorem. -/
def scopeVar : Variable :=
  { id := "s1", name := "Indigo/1000/[Semi semantics] Bold",
    resolvedType := "COLOR",
    valuesByMode := [("m1", Value.color 0 0 0 1)] }

def scopeColl : Collection :=
  { id := "c9", name := "9 Theme", modes := [⟨"m1", "Default"⟩],
    vars := [scopeVar] }

def scopeDoc : Document :=
  { collections := [scopeColl,
      { id := "c0", name := "00_Semi semantics",
        modes := [⟨"m1", "Value"⟩], vars := [] }] }

theorem fix_external_references_scope_witness :
    (fix_external_references scopeDoc).collections[0]? = some scopeColl ∧
    (fix_external_references_v2 scopeDoc).collections[0]? = some scopeColl ∧
    fixVarER [] scopeVar = scopeVar ∧
    fixVarER2 scopeVar = scopeVar :=
  fix_external_references_scope scopeDoc 0 scopeColl [] scopeVar rfl
    (by decide) (by decide)

/-! ### Skeletons: identity of collections, modes and variables -/

def varSkel (v : Variable) : String × String × String :=
  (v.id, v.name, v.resolvedType)

def collSkel (c : Collection) :
    String × String × List Mode × List (String × String × String) :=
  (c.id, c.name, c.modes, c.vars.map varSkel)

def docSkel (d : Document) :
    List (String × String × List Mode × List (String × String × String)) :=
  d.collections.map collSkel

/-- Some mode value of the variable is the exact white direct color. -/
def hasWhiteMode (var : Variable) : Bool :=
  var.valuesByMode.any (fun p =>
    match p.2 with
    | Value.color r g b _ => decide (r = 1 ∧ g = 1 ∧ b = 1)
    | _ => false)

/-- v1's selection condition for a variable of the examined collection
(`get_rgb_for_variable` always succeeds once the name has ≥ 3 segments,
so these three tests decide the rewrite). -/
def erSelected (var : Variable) : Bool :=
  !strContainsSub var.name "[Semi semantics]" && hasExternalAlias var &&
    decide (3 ≤ (splitOnSlash var.name).length)

lemma varSkel_fixVarER (rgbMap : List (String × (ℚ × ℚ × ℚ)))
    (v : Variable) : varSkel (fixVarER rgbMap v) = varSkel v := by
  unfold fixVarER
  split_ifs <;> try rfl
  by_cases h3 : (splitOnSlash v.name).length < 3
  · simp only [if_pos h3]
  · simp only [if_neg h3]
    rcases get_rgb_for_variable v.name rgbMap with _ | rgb <;> rfl

lemma varSkel_fixVarER2 (v : Variable) :
    varSkel (fixVarER2 v) = varSkel v := by
  unfold fixVarER2
  split_ifs <;> rfl

lemma collSkel_mapVars (c : Collection) (f : Variable → Variable)
    (hf : ∀ v, varSkel (f v) = varSkel v) :
    collSkel { c with vars := (c.vars.map f) } = collSkel c := by
  unfold collSkel
  simp only [List.map_map]
  have hmap : List.map (varSkel ∘ f) c.vars = List.map varSkel c.vars :=
    List.map_congr_left (fun v _ => hf v)
  rw [hmap]

lemma applyFirst_skel (p : Collection → Bool) (f : Collection → Collection)
    (h : ∀ c, collSkel (f c) = collSkel c) :
    ∀ l : List Collection,
      (applyFirst p f l).map collSkel = l.map collSkel := by
  intro l
  induction l with
  | nil => rfl
  | cons y ys ih =>
    unfold applyFirst
    by_cases hy : p y = true
    · rw [if_pos hy]
      simp [h y]
    · rw [if_neg hy]
      simp [ih]

/-- C6. Repair passes are value-local: neither pass adds or deletes a
collection, mode or variable, or changes any id, name or resolved type
(the document skeletons are preserved); the white-color pass leaves a
variable with no white mode value entirely unchanged, and the
external-reference pass leaves an unselected variable entirely
unchanged. -/
theorem repair_value_local
    (palettes : List (String × List (String × (ℚ × ℚ × ℚ))))
    (doc : Document) (rgbMap : List (String × (ℚ × ℚ × ℚ)))
    (vw ve : Variable)
    (hw : hasWhiteMode vw = false)
    (he : erSelected ve = false) :
    docSkel (fix_all_white_colors palettes doc) = docSkel doc ∧
    docSkel (fix_external_references doc) = docSkel doc ∧
    docSkel (fix_external_references_v2 doc) = docSkel doc ∧
    fixVarWhite palettes vw = vw ∧
    fixVarER rgbMap ve = ve := by
  refine ⟨?_, ?_, ?_, ?_, ?_⟩
  · unfold docSkel fix_all_white_colors
    simp only [List.map_map]
    exact List.map_congr_left
      (fun c _ => collSkel_mapVars c (fixVarWhite palettes) (fun v => rfl))
  · unfold docSkel fix_external_references
    exact applyFirst_skel _ _
      (fun c => collSkel_mapVars c _ (varSkel_fixVarER _)) doc.collections
  · unfold docSkel fix_external_references_v2
    exact applyFirst_skel _ _
      (fun c => collSkel_mapVars c _ varSkel_fixVarER2) doc.collections
  · unfold fixVarWhite
    have hent : ∀ q ∈ vw.valuesByMode,
        whiteFixEntry palettes (extract_color_info_from_name vw.name) q = q := by
      intro q hq
      unfold hasWhiteMode at hw
      rw [List.any_eq_false] at hw
      have hqf := hw q hq
      rcases q with ⟨mid, val⟩
      cases val with
      | color r g b a =>
        simp only [decide_eq_true_eq] at hqf
        simp [whiteFixEntry, hqf]
      | aliasV t => rfl
      | falsy => rfl
      | other => rfl
    rw [List.map_congr_left hent, List.map_id']
  · unfold fixVarER
    by_cases h1 : strContainsSub ve.name "[Semi semantics]" = true
    · rw [if_pos h1]
    · rw [if_neg h1]
      have h1f : strContainsSub ve.name "[Semi semantics]" = false := by
        revert h1
        cases strContainsSub ve.name "[Semi semantics]" <;> simp
      by_cases h2 : hasExternalAlias ve = true
      · have h3 : (splitOnSlash ve.name).length < 3 := by
          by_contra hc3
          apply absurd he
          simp only [erSelected, h1f, h2, Bool.not_false, Bool.true_and,
            Bool.and_eq_false_iff]
          simp
          omega
        rw [if_neg (by simp [h2])]
        simp [h3]
      · have h2f : hasExternalAlias ve = false := by
          revert h2
          cases hasExternalAlias ve <;> simp
        rw [if_pos (by rw [h2f]; rfl)]

/-- Witness variables for `repair_value_local`: a variable with no white
mode value, and an unselected variable (it carries the skip marker). -/
def nonWhiteVar : Variable :=
  { id := "n1", name := "Grey/100/Surface", resolvedType := "COLOR",
    valuesByMode := [("m1", Value.color 0 0 0 1), ("m2", Value.aliasV "z")] }

theorem repair_value_local_witness :
    docSkel (fix_all_white_colors [] scopeDoc) = docSkel scopeDoc ∧
    docSkel (fix_external_references scopeDoc) = docSkel scopeDoc ∧
    docSkel (fix_external_references_v2 scopeDoc) = docSkel scopeDoc ∧
    fixVarWhite [] nonWhiteVar = nonWhiteVar ∧
    fixVarER [] scopeVar = scopeVar :=
  repair_value_local [] scopeDoc [] nonWhiteVar scopeVar (by decide) (by decide)

/-! ### C2: which modes does a repair overwrite? -/

/-- A variable selected via the white signature in one mode, with an
alias value in its other mode, and a palette that does supply the
derived replacement for its name. -/
def cexVar : Variable :=
  { id := "w1", name := "Grey/2500/Surface", resolvedType := "COLOR",
    valuesByMode := [("m1", Value.color 1 1 1 1), ("m2", Value.aliasV "local9")] }

def cexDoc : Document :=
  { collections := [
      { id := "c0", name := "00_Semi semantics",
        modes := [⟨"m1", "A"⟩, ⟨"m2", "B"⟩], vars := [cexVar] }] }

def cexPalettes : List (String × List (String × (ℚ × ℚ × ℚ))) :=
  [("grey", [("2500", (0.5, 0.5, 0.5))])]

/-- C2 counterexample.  In `fix_all_white_colors` the white-placeholder
selection is per mode, not per variable: `cexVar` is selected through its
white `m1` value (its name parses to the palette entry `grey.2500`, which
exists), yet after the pass the `m2` value is still the original alias —
not a Direct color at all — so the replacement does *not* overwrite every
mode id of the variable. -/
theorem white_fix_not_all_modes_counterexample :
    alookup cexVar.valuesByMode "m1" = some (Value.color 1 1 1 1) ∧
    extract_color_info_from_name cexVar.name = (some "grey", some "2500") ∧
    alookup (fixVarWhite cexPalettes cexVar).valuesByMode "m2" =
      some (Value.aliasV "local9") ∧
    (∀ r g b a : ℚ, Value.aliasV "local9" ≠ Value.color r g b a) ∧
    (fix_all_white_colors cexPalettes cexDoc).collections =
      [{ id := "c0", name := "00_Semi semantics",
         modes := [⟨"m1", "A"⟩, ⟨"m2", "B"⟩],
         vars := [fixVarWhite cexPalettes cexVar] }] := by
  refine ⟨rfl, by decide, rfl, ?_, rfl⟩
  intro r g b a h
  cases h

/-- C2 (amended).  The external-reference passes do overwrite every mode
id of a selected variable with the derived Direct color: v1 writes the
working-variable/Grey RGB with the weight alpha into every mode, v2 its
color-table replacement likewise.  The white-color pass instead decides
per mode: an entry whose value is not the exact white direct color —
aliases included — is left untouched, and a white direct color with a
palette hit for the name-derived family and step is replaced in that
mode only, with its alpha preserved. -/
theorem repair_replacement_modes
    (rgbMap : List (String × (ℚ × ℚ × ℚ)))
    (palettes : List (String × List (String × (ℚ × ℚ × ℚ))))
    (var var2 : Variable) (rgb : ℚ × ℚ × ℚ)
    (h1 : strContainsSub var.name "[Semi semantics]" = false)
    (h2 : hasExternalAlias var = true)
    (h3 : 3 ≤ (splitOnSlash var.name).length)
    (h4 : get_rgb_for_variable var.name rgbMap = some rgb)
    (g1 : strContainsSub var2.name "[Semi semantics]" = false)
    (g2 : hasExternalAlias var2 = true)
    (g3 : 3 ≤ (splitOnSlash var2.name).length) :
    (fixVarER rgbMap var).valuesByMode =
      var.valuesByMode.map (fun p => (p.1,
        Value.color rgb.1 rgb.2.1 rgb.2.2
          (get_alpha_for_weight ((splitOnSlash var.name).getD 2 "")))) ∧
    (fixVarER2 var2).valuesByMode =
      var2.valuesByMode.map (fun p => (p.1, erV2Replacement var2.name)) ∧
    (∀ info mid r g b a, ¬(r = 1 ∧ g = 1 ∧ b = 1) →
      whiteFixEntry palettes info (mid, Value.color r g b a) =
        (mid, Value.color r g b a)) ∧
    (∀ info mid t, whiteFixEntry palettes info (mid, Value.aliasV t) =
      (mid, Value.aliasV t)) ∧
    (∀ pn st pal prgb mid a,
      alookup palettes pn = some pal → alookup pal st = some prgb →
      whiteFixEntry palettes (some pn, some st) (mid, Value.color 1 1 1 a) =
        (mid, Value.color (round4 prgb.1) (round4 prgb.2.1) (round4 prgb.2.2) a)) := by
  have h3f : ¬ ((splitOnSlash var.name).length < 3) := by omega
  have g3f : ¬ ((splitOnSlash var2.name).length < 3) := by omega
  refine ⟨?_, ?_, ?_, ?_, ?_⟩
  · simp [fixVarER, h1, h2, h3f, h4]
  · simp [fixVarER2, g1, g2, g3f]
  · intro info mid r g b a hnw
    simp [whiteFixEntry, hnw]
  · intro info mid t
    rfl
  · intro pn st pal prgb mid a hpal hst
    simp [whiteFixEntry, hpal, hst]

/-- Witness for `repair_replacement_modes`: a selected variable with an
external alias in one mode and a direct color in the other has both
modes overwritten by v1 and v2. -/
def erVar : Variable :=
  { id := "e1", name := "Grey/2500/Surface", resolvedType := "COLOR",
    valuesByMode := [("m1", Value.aliasV "S1:1/2"), ("m2", Value.color 0 0 0 1)] }

theorem repair_replacement_modes_witness :
    (fixVarER [] erVar).valuesByMode =
      erVar.valuesByMode.map (fun p => (p.1,
        Value.color GREY_RGB.1 GREY_RGB.2.1 GREY_RGB.2.2
          (get_alpha_for_weight ((splitOnSlash erVar.name).getD 2 "")))) ∧
    (fixVarER2 erVar).valuesByMode =
      erVar.valuesByMode.map (fun p => (p.1, erV2Replacement erVar.name)) := by
  have h := repair_replacement_modes [] [] erVar erVar GREY_RGB
    rfl (by decide) (by decide) rfl rfl (by decide) (by decide)
  exact ⟨h.1, h.2.1⟩

/-! ## Multi-mode tracing (`deep_alias_trace.py`) -/

structure IndexedVar where
  var : Variable
  collection_name : String
  collection_id : String
  modes : List Mode
deriving DecidableEq, Repr

/-- `build_variable_index`: id → variable record annotated with its
collection name, id and mode list; later bindings overwrite earlier
ones. -/
def varIndexFind (doc : Document) (vid : String) : Option IndexedVar :=
  doc.collections.foldl
    (fun acc c => c.vars.foldl
      (fun acc v =>
        if v.id = vid then some ⟨v, c.name, c.id, c.modes⟩ else acc) acc)
    none

/-- A `chain[i]['values']` entry: either an alias (target id and display
name) or a direct color (the source formats it as an `rgba(…)` string;
the numbers themselves are kept here). -/
inductive TraceVal where
  | aliasTo (target_id target_name : String)
  | colorInfo (r g b a : ℚ)
deriving DecidableEq, Repr

structure ChainLink where
  id : String
  name : String
  collection : String
  collection_id : String
  rtype : String
  values : List (String × TraceVal)
deriving DecidableEq, Repr

/-- `var_index.get(aliased_id, {}).get('name', 'Unknown')`. -/
def targetNameOf (doc : Document) (t : String) : String :=
  match varIndexFind doc t with
  | some iv => iv.var.name
  | none => "Unknown"

/-- `trace_complete_chain`: returns `[]` for a visited or unknown id,
otherwise builds the entry for `vid` while walking its collection's
modes in order; an alias mode records the target and recurses with
`visited.copy()` — every branch receives the parent's set
`vid :: visited`, unextended by its siblings — and a color mode records
the color.  Fuel makes the recursion explicit as for the resolver. -/
def trace_complete_chain (doc : Document) :
    ℕ → String → List String → List ChainLink
  | 0, _, _ => []
  | fuel+1, vid, visited =>
    if vid ∈ visited then [] else
    match varIndexFind doc vid with
    | none => []
    | some iv =>
      let visited' := vid :: visited
      let acc := iv.modes.foldl
        (fun (acc : List (String × TraceVal) × List ChainLink) mode =>
          match alookup iv.var.valuesByMode mode.modeId with
          | some (Value.aliasV t) =>
            (acc.1 ++ [(mode.name, TraceVal.aliasTo t (targetNameOf doc t))],
             acc.2 ++ trace_complete_chain doc fuel t visited')
          | some (Value.color r g b a) =>
            (acc.1 ++ [(mode.name, TraceVal.colorInfo r g b a)], acc.2)
          | _ => acc)
        ([], [])
      { id := vid, name := iv.var.name, collection := iv.collection_name,
        collection_id := iv.collection_id, rtype := iv.var.resolvedType,
        values := acc.1 } :: acc.2

/-- C5. Sibling independence of the visited set in the multi-mode trace:
for a variable whose two modes both hold aliases, the chain decomposes
into the entry followed by the two sub-traces, and *both* recursive
branches receive the same visited set `vid :: visited` — the first
branch's traversal never extends the set seen by the second, so a
variable reachable through both branches is traced in each rather than
reported as a cycle. -/
theorem trace_sibling_independence (doc : Document) (fuel : ℕ)
    (vid : String) (visited : List String) (iv : IndexedVar)
    (m1 m2 : Mode) (t1 t2 : String)
    (hvis : vid ∉ visited)
    (hiv : varIndexFind doc vid = some iv)
    (hmodes : iv.modes = [m1, m2])
    (hv1 : alookup iv.var.valuesByMode m1.modeId = some (Value.aliasV t1))
    (hv2 : alookup iv.var.valuesByMode m2.modeId = some (Value.aliasV t2)) :
    trace_complete_chain doc (fuel + 1) vid visited =
      { id := vid, name := iv.var.name, collection := iv.collection_name,
        collection_id := iv.collection_id, rtype := iv.var.resolvedType,
        values := [(m1.name, TraceVal.aliasTo t1 (targetNameOf doc t1)),
                   (m2.name, TraceVal.aliasTo t2 (targetNameOf doc t2))] } ::
      (trace_complete_chain doc fuel t1 (vid :: visited) ++
       trace_complete_chain doc fuel t2 (vid :: visited)) := by
  simp [trace_complete_chain, hvis, hiv, hmodes, hv1, hv2]

/-- Witness for `trace_sibling_independence`: both modes of `P` alias the
same variable `X`; the chain contains `X`'s sub-trace once per branch,
each computed from the same visited set `["P"]`. -/
def diamondP : Variable :=
  { id := "P", name := "Jio/Surfaces/[Theme] Surface",
    resolvedType := "COLOR",
    valuesByMode := [("m1", Value.aliasV "X"), ("m2", Value.aliasV "X")] }

def diamondX : Variable :=
  { id := "X", name := "Shared/Target", resolvedType := "COLOR",
    valuesByMode := [("m1", Value.color 0 0 0 1), ("m2", Value.color 0 0 0 1)] }

def diamondDoc : Document :=
  { collections := [
      { id := "cD", name := "9 Theme",
        modes := [⟨"m1", "MyJio"⟩, ⟨"m2", "JioFinance"⟩],
        vars := [diamondP, diamondX] }] }

theorem trace_sibling_independence_witness :
    trace_complete_chain diamondDoc 2 "P" [] =
      { id := "P", name := diamondP.name, collection := "9 Theme",
        collection_id := "cD", rtype := "COLOR",
        values := [("MyJio", TraceVal.aliasTo "X" (targetNameOf diamondDoc "X")),
                   ("JioFinance", TraceVal.aliasTo "X" (targetNameOf diamondDoc "X"))] } ::
      (trace_complete_chain diamondDoc 1 "X" ["P"] ++
       trace_complete_chain diamondDoc 1 "X" ["P"]) :=
  trace_sibling_independence diamondDoc 1 "P" []
    ⟨diamondP, "9 Theme", "cD", [⟨"m1", "MyJio"⟩, ⟨"m2", "JioFinance"⟩]⟩
    ⟨"m1", "MyJio"⟩ ⟨"m2", "JioFinance"⟩ "X" "X"
    (by decide) rfl rfl rfl rfl

end TokenLink
